/-
Verification development for the Whisper-free transcription job scheduler
(`app/core/transcription_queue_manager.py` and `app/data/database.py`).

The Python source is shallowly embedded: pure fragments become Lean
functions, the SQLite job/chunk tables become association lists with the
same insert/update/query semantics, Python's `heapq`-backed
`queue.PriorityQueue` is embedded operation by operation, and the
concurrent scheduler (worker loop + submit/cancel callers) becomes a
labelled transition system whose steps are the points where the shared
state (job statuses, queue, locks, the pause event) changes.
-/
import Mathlib

namespace WhisperFree

/-! ## Enumerations

`JobPriority` carries the explicit Python values (HIGH = 0 < NORMAL = 1
< LOW = 2).  `JobStatus` uses `enum.auto()` in the source, which numbers
members starting at 1: PENDING = 1, RUNNING = 2, PAUSED = 3,
COMPLETED = 4, FAILED = 5, CANCELLED = 6. -/

inductive JobPriority
  | HIGH
  | NORMAL
  | LOW
deriving DecidableEq, Repr

def JobPriority.value : JobPriority → Nat
  | .HIGH => 0
  | .NORMAL => 1
  | .LOW => 2

inductive JobStatus
  | PENDING
  | RUNNING
  | PAUSED
  | COMPLETED
  | FAILED
  | CANCELLED
deriving DecidableEq, Repr

/-- Python `enum.auto()` numbers members from 1. -/
def JobStatus.value : JobStatus → Nat
  | .PENDING => 1
  | .RUNNING => 2
  | .PAUSED => 3
  | .COMPLETED => 4
  | .FAILED => 5
  | .CANCELLED => 6

/-! ## Chunker (`_transcribe_file`, lines 480–497)

The source splits the loaded sample buffer with
`for i in range(0, len(audio), CHUNK_SIZE)` where
`CHUNK_SIZE = int(30.0 * 16000)`; each chunk records
`start_time = i / 16000` and `end_time = (i + len(chunk_audio)) / 16000`
and `index = len(chunks)` accumulated so far.  We model the buffer by its
sample count `n` and keep the sample bounds; times in seconds are the
exact rational quotients. -/

def CHUNK_DURATION : ℚ := 30
def SAMPLE_RATE : Nat := 16000
def CHUNK_SIZE : Nat := 480000

structure AudioChunk where
  index : Nat
  startSample : Nat
  endSample : Nat
deriving DecidableEq, Repr

def AudioChunk.startTime (c : AudioChunk) : ℚ := (c.startSample : ℚ) / 16000

def AudioChunk.endTime (c : AudioChunk) : ℚ := (c.endSample : ℚ) / 16000

/-- Number of chunks produced for `n` samples: `⌈n / CHUNK_SIZE⌉`. -/
def numChunks (n : Nat) : Nat := (n + CHUNK_SIZE - 1) / CHUNK_SIZE

/-- The loop `for i in range(0, n, CHUNK_SIZE)` starting at sample `i`
with `idx` chunks already accumulated.  The fuel argument is only an
upper bound on the iterations left (the loop advances `i` by `CHUNK_SIZE`
each time), keeping the recursion structural; `splitChunks` supplies
`numChunks n`, which is exact. -/
def splitFrom : Nat → Nat → Nat → Nat → List AudioChunk
  | 0, _, _, _ => []
  | fuel + 1, n, i, idx =>
    if i < n then
      ⟨idx, i, min (i + CHUNK_SIZE) n⟩ ::
        splitFrom fuel n (i + CHUNK_SIZE) (idx + 1)
    else []

def splitChunks (n : Nat) : List AudioChunk := splitFrom (numChunks n) n 0 0

theorem numChunks_zero_iff (n : Nat) : numChunks n = 0 ↔ n = 0 := by
  unfold numChunks CHUNK_SIZE
  omega

theorem numChunks_step (n i : Nat) (h : i < n) :
    numChunks (n - i) = numChunks (n - (i + CHUNK_SIZE)) + 1 := by
  unfold numChunks CHUNK_SIZE at *
  omega

theorem splitFrom_eq_aux (fuel : Nat) : ∀ n i idx, numChunks (n - i) ≤ fuel →
    splitFrom fuel n i idx =
      (List.range (numChunks (n - i))).map
        (fun t => ⟨idx + t, i + t * CHUNK_SIZE, min (i + (t + 1) * CHUNK_SIZE) n⟩) := by
  induction fuel with
  | zero =>
    intro n i idx hle
    have h0 : numChunks (n - i) = 0 := by omega
    rw [h0]
    rfl
  | succ fuel ih =>
    intro n i idx hle
    rw [splitFrom]
    by_cases h : i < n
    · simp only [h, if_true]
      have hstep := numChunks_step n i h
      rw [ih n (i + CHUNK_SIZE) (idx + 1) (by omega)]
      rw [hstep, List.range_succ_eq_map, List.map_cons, List.map_map]
      rw [List.cons_eq_cons]
      refine ⟨by simp, List.map_congr_left ?_⟩
      intro t ht
      simp only [Function.comp_apply, AudioChunk.mk.injEq, Nat.succ_eq_add_one]
      refine ⟨by omega, by ring, ?_⟩
      congr 1
      ring
    · simp only [h, if_false]
      have h0 : numChunks (n - i) = 0 := by
        rw [numChunks_zero_iff]; omega
      simp [h0]

/-- Closed form of the chunk list: chunk `k` spans samples
`[k·CHUNK_SIZE, min ((k+1)·CHUNK_SIZE, n))`. -/
theorem splitChunks_eq (n : Nat) :
    splitChunks n =
      (List.range (numChunks n)).map
        (fun k => ⟨k, k * CHUNK_SIZE, min ((k + 1) * CHUNK_SIZE) n⟩) := by
  rw [splitChunks, splitFrom_eq_aux (numChunks n) n 0 0
    (by rw [Nat.sub_zero])]
  simp

theorem splitChunks_length (n : Nat) : (splitChunks n).length = numChunks n := by
  rw [splitChunks_eq]; simp

theorem splitChunks_get (n k : Nat) (h : k < (splitChunks n).length) :
    (splitChunks n).get ⟨k, h⟩ = ⟨k, k * CHUNK_SIZE, min ((k + 1) * CHUNK_SIZE) n⟩ := by
  have hk : k < numChunks n := splitChunks_length n ▸ h
  simp [splitChunks_eq, List.get_eq_getElem]

/-- C8. The chunker splits a buffer of `n` samples (duration `D = n / 16000`
seconds) into 30-second windows: chunk `k` has `start_time = 30·k` and
`end_time = min (30·(k+1)) D`, the first chunk starts at sample 0,
consecutive chunks abut exactly (no gaps, no overlaps), and the last chunk
ends at `D`. -/
theorem C8_chunker_windows (n : Nat) (hn : 0 < n) :
    (splitChunks n).length = numChunks n ∧
    (∀ k (h : k < (splitChunks n).length),
        ((splitChunks n).get ⟨k, h⟩).startTime = CHUNK_DURATION * k ∧
        ((splitChunks n).get ⟨k, h⟩).endTime =
          min (CHUNK_DURATION * (k + 1)) ((n : ℚ) / 16000)) ∧
    (∀ h : 0 < (splitChunks n).length,
        ((splitChunks n).get ⟨0, h⟩).startSample = 0) ∧
    (∀ k (h : k + 1 < (splitChunks n).length),
        ((splitChunks n).get ⟨k, Nat.lt_of_succ_lt h⟩).endSample =
          ((splitChunks n).get ⟨k + 1, h⟩).startSample) ∧
    (∀ h : (splitChunks n).length - 1 < (splitChunks n).length,
        ((splitChunks n).get ⟨(splitChunks n).length - 1, h⟩).endTime =
          (n : ℚ) / 16000) := by
  have h16 : (0 : ℚ) ≤ 16000 := by norm_num
  refine ⟨splitChunks_length n, ?_, ?_, ?_, ?_⟩
  · intro k h
    rw [splitChunks_get]
    constructor
    · show ((k * CHUNK_SIZE : Nat) : ℚ) / 16000 = CHUNK_DURATION * k
      rw [CHUNK_DURATION, CHUNK_SIZE]
      push_cast
      rw [div_eq_iff (by norm_num : (16000 : ℚ) ≠ 0)]
      ring
    · show ((min ((k + 1) * CHUNK_SIZE) n : Nat) : ℚ) / 16000 =
        min (CHUNK_DURATION * (k + 1)) ((n : ℚ) / 16000)
      rw [Nat.cast_min, ← min_div_div_right h16]
      congr 1
      rw [CHUNK_DURATION, CHUNK_SIZE]
      push_cast
      rw [div_eq_iff (by norm_num : (16000 : ℚ) ≠ 0)]
      ring
  · intro h
    rw [splitChunks_get]
    simp
  · intro k h
    rw [splitChunks_get, splitChunks_get]
    show min ((k + 1) * CHUNK_SIZE) n = (k + 1) * CHUNK_SIZE
    have hk1 : k + 1 < numChunks n := splitChunks_length n ▸ h
    simp only [numChunks, CHUNK_SIZE] at hk1 ⊢
    omega
  · intro h
    rw [splitChunks_get]
    show ((min (((splitChunks n).length - 1 + 1) * CHUNK_SIZE) n : Nat) : ℚ) / 16000 =
      (n : ℚ) / 16000
    have hlen : (splitChunks n).length = numChunks n := splitChunks_length n
    have hmin : min (((splitChunks n).length - 1 + 1) * CHUNK_SIZE) n = n := by
      rw [hlen]
      simp only [numChunks, CHUNK_SIZE]
      omega
    rw [hmin]

/-- Witness for C8 at a concrete 75-second buffer (1,200,000 samples,
three chunks). -/
theorem C8_chunker_windows_witness :
    0 < 1200000 ∧
    ((splitChunks 1200000).length = numChunks 1200000 ∧
    (∀ k (h : k < (splitChunks 1200000).length),
        ((splitChunks 1200000).get ⟨k, h⟩).startTime = CHUNK_DURATION * k ∧
        ((splitChunks 1200000).get ⟨k, h⟩).endTime =
          min (CHUNK_DURATION * (k + 1)) ((1200000 : ℚ) / 16000)) ∧
    (∀ h : 0 < (splitChunks 1200000).length,
        ((splitChunks 1200000).get ⟨0, h⟩).startSample = 0) ∧
    (∀ k (h : k + 1 < (splitChunks 1200000).length),
        ((splitChunks 1200000).get ⟨k, Nat.lt_of_succ_lt h⟩).endSample =
          ((splitChunks 1200000).get ⟨k + 1, h⟩).startSample) ∧
    (∀ h : (splitChunks 1200000).length - 1 < (splitChunks 1200000).length,
        ((splitChunks 1200000).get ⟨(splitChunks 1200000).length - 1, h⟩).endTime =
          (1200000 : ℚ) / 16000)) :=
  ⟨by norm_num, C8_chunker_windows 1200000 (by norm_num)⟩

/-! ## Job store (`app/data/database.py`)

The `transcription_jobs` table is an append-ordered list of records
(`id` is the primary key; callers of `add_transcription_job` pass fresh
UUID-based ids).  `transcription_chunks` has `UNIQUE(job_id, chunk_index)`
and is written with `INSERT OR REPLACE`, which deletes any conflicting
row and appends the new one.  Statuses are stored as the Python enum
`.value` (`job.status.value`). -/

structure JobRec where
  id : String
  priority : Nat
  status : Nat
  file_path : Option String
  language : Option String
  total_chunks : Nat := 1
  completed_chunks : Nat := 0
  current_chunk_index : Nat := 0
  result_text : Option String := none
  error_message : Option String := none
deriving DecidableEq, Repr

structure ChunkRec where
  job_id : String
  chunk_index : Nat
  text : String
  start_time : ℚ
  end_time : ℚ
deriving DecidableEq, Repr

/-- `add_transcription_job` (database.py 545–599): plain `INSERT`. -/
def add_transcription_job (table : List JobRec) (rec : JobRec) : List JobRec :=
  table ++ [rec]

/-- The optional-field updates accepted by `update_transcription_job`
(database.py 601–674); `none` means the argument was not passed. -/
structure JobUpdate where
  status : Option Nat := none
  completed_chunks : Option Nat := none
  current_chunk_index : Option Nat := none
  result_text : Option String := none
  error_message : Option String := none
deriving Repr

def applyUpdate (u : JobUpdate) (r : JobRec) : JobRec :=
  { r with
    status := u.status.getD r.status
    completed_chunks := u.completed_chunks.getD r.completed_chunks
    current_chunk_index := u.current_chunk_index.getD r.current_chunk_index
    result_text := match u.result_text with
      | some t => some t
      | none => r.result_text
    error_message := match u.error_message with
      | some m => some m
      | none => r.error_message }

/-- `update_transcription_job`: `UPDATE ... WHERE id = ?`. -/
def update_transcription_job (table : List JobRec) (job_id : String)
    (u : JobUpdate) : List JobRec :=
  table.map (fun r => if r.id = job_id then applyUpdate u r else r)

/-- Stable insertion into a sorted list: the new element goes in front of
the first element it is `le`-below-or-equal-to, so equal keys keep their
original relative order (SQL `ORDER BY` on `created_at`-tied rows). -/
def insertSorted (le : α → α → Bool) (a : α) : List α → List α
  | [] => [a]
  | b :: l => if le a b then a :: b :: l else b :: insertSorted le a l

/-- Stable insertion sort, used to model SQL `ORDER BY`. -/
def sortStable (le : α → α → Bool) : List α → List α
  | [] => []
  | a :: l => insertSorted le a (sortStable le l)

/-- `get_pending_jobs` (database.py 709–740):
`SELECT * FROM transcription_jobs WHERE status IN (0, 2)
 ORDER BY priority ASC, created_at ASC`.
`created_at` order is insertion order, so the query is a stable sort of
the filtered rows by priority.  -/
def get_pending_jobs (table : List JobRec) : List JobRec :=
  sortStable (fun a b => a.priority ≤ b.priority)
    (table.filter (fun r => r.status == 0 || r.status == 2))

/-- Key equality for the `UNIQUE(job_id, chunk_index)` constraint. -/
def chunkKeyMatch (job_id : String) (chunk_index : Nat) (c : ChunkRec) :
    Bool :=
  c.job_id == job_id && c.chunk_index == chunk_index

/-- `add_transcription_chunk` (database.py 742–778):
`INSERT OR REPLACE INTO transcription_chunks`, keyed by
`UNIQUE(job_id, chunk_index)` — SQLite deletes the conflicting row and
inserts the new one. -/
def add_transcription_chunk (store : List ChunkRec) (r : ChunkRec) :
    List ChunkRec :=
  (store.filter (fun c => !chunkKeyMatch r.job_id r.chunk_index c)) ++ [r]

/-- `get_job_chunks` (database.py 780–807):
`SELECT ... WHERE job_id = ? ORDER BY chunk_index ASC`. -/
def get_job_chunks (store : List ChunkRec) (job_id : String) :
    List ChunkRec :=
  sortStable (fun a b => a.chunk_index ≤ b.chunk_index)
    (store.filter (fun c => c.job_id == job_id))

/-- The rows of `store` holding the chunk key `(job_id, chunk_index)`. -/
def chunkKeyRows (store : List ChunkRec) (job_id : String)
    (chunk_index : Nat) : List ChunkRec :=
  store.filter (chunkKeyMatch job_id chunk_index)

theorem chunkKeyRows_add_same (store : List ChunkRec) (r : ChunkRec) :
    chunkKeyRows (add_transcription_chunk store r) r.job_id r.chunk_index
      = [r] := by
  unfold chunkKeyRows add_transcription_chunk
  rw [List.filter_append, List.filter_filter]
  have h2 : (store.filter (fun c =>
      chunkKeyMatch r.job_id r.chunk_index c &&
        !chunkKeyMatch r.job_id r.chunk_index c)) = [] := by
    simp
  have h3 : chunkKeyMatch r.job_id r.chunk_index r = true := by
    simp [chunkKeyMatch]
  simp [h2, h3]

/-- C9. Chunk writes are idempotent per key: writing twice with the same
`(job_id, chunk_index)` leaves exactly one row for that key, holding the
second write — the write overwrites rather than appends. -/
theorem C9_chunk_write_overwrites (store : List ChunkRec) (r1 r2 : ChunkRec)
    (hjob : r1.job_id = r2.job_id) (hidx : r1.chunk_index = r2.chunk_index) :
    chunkKeyRows
        (add_transcription_chunk (add_transcription_chunk store r1) r2)
        r1.job_id r1.chunk_index = [r2] ∧
    (chunkKeyRows
        (add_transcription_chunk (add_transcription_chunk store r1) r2)
        r1.job_id r1.chunk_index).length = 1 := by
  rw [hjob, hidx, chunkKeyRows_add_same]
  exact ⟨rfl, rfl⟩

/-- Witness for C9 at concrete records sharing the key `("job_a", 2)`. -/
theorem C9_chunk_write_overwrites_witness :
    ("job_a" : String) = "job_a" ∧ (2 : Nat) = 2 ∧
    chunkKeyRows
        (add_transcription_chunk
          (add_transcription_chunk [⟨"job_b", 0, "x", 0, 30⟩]
            ⟨"job_a", 2, "first", 60, 75⟩)
          ⟨"job_a", 2, "second", 60, 75⟩)
        "job_a" 2 = [⟨"job_a", 2, "second", 60, 75⟩] ∧
    (chunkKeyRows
        (add_transcription_chunk
          (add_transcription_chunk [⟨"job_b", 0, "x", 0, 30⟩]
            ⟨"job_a", 2, "first", 60, 75⟩)
          ⟨"job_a", 2, "second", 60, 75⟩)
        "job_a" 2).length = 1 :=
  ⟨rfl, rfl,
    (C9_chunk_write_overwrites [⟨"job_b", 0, "x", 0, 30⟩]
      ⟨"job_a", 2, "first", 60, 75⟩ ⟨"job_a", 2, "second", 60, 75⟩ rfl rfl).1,
    (C9_chunk_write_overwrites [⟨"job_b", 0, "x", 0, 30⟩]
      ⟨"job_a", 2, "first", 60, 75⟩ ⟨"job_a", 2, "second", 60, 75⟩ rfl rfl).2⟩

/-! ## Startup recovery (`_restore_pending_jobs`, queue manager 688–716)

`submit_file_job` persists new jobs with `status=job.status.value` where
`job.status` is `JobStatus.PENDING` — that is, stored status `1` (and the
pause path stores `JobStatus.PAUSED.value = 3`).  `_restore_pending_jobs`
asks the store for `get_pending_jobs()` (which filters `status IN (0, 2)`),
drops rows with a falsy `file_path`, and re-submits the rest. -/

/-- The job record persisted by `submit_file_job`
(transcription_queue_manager.py 239–266). -/
def submitFileJobRec (jid : String) (prio : JobPriority) (path : String)
    (language : Option String) : JobRec :=
  { id := jid
    priority := prio.value
    status := JobStatus.PENDING.value
    file_path := some path
    language := language }

/-- Python truthiness of `job_data.get('file_path')`: `None` and the empty
string are falsy. -/
def truthyPath : Option String → Bool
  | some p => !(p == "")
  | none => false

/-- `_restore_pending_jobs`: the `(priority, file_path)` submissions the
recovery routine makes (each one becomes a pending entry of the in-memory
queue). -/
def restore_pending_jobs (table : List JobRec) : List (Nat × String) :=
  ((get_pending_jobs table).filter (fun r => truthyPath r.file_path)).map
    (fun r => (r.priority, r.file_path.getD ""))

/-- C5 (evaluation at the failing input).  A store holding exactly one
PENDING file job (as persisted by `submit_file_job`: stored status value 1)
and one PAUSED file job (stored status value 3, as written by the pause
path) yields nothing from `get_pending_jobs` — its SQL filter is
`status IN (0, 2)` — so the recovery routine re-enqueues nothing, against
the claim that both jobs are re-enqueued. -/
theorem C5_restore_misses_pending_and_paused :
    JobStatus.PENDING.value = 1 ∧ JobStatus.PAUSED.value = 3 ∧
    get_pending_jobs
      [submitFileJobRec "file_1" .NORMAL "a.wav" none,
       { submitFileJobRec "file_2" .NORMAL "b.wav" none with
          status := JobStatus.PAUSED.value }] = [] ∧
    restore_pending_jobs
      [submitFileJobRec "file_1" .NORMAL "a.wav" none,
       { submitFileJobRec "file_2" .NORMAL "b.wav" none with
          status := JobStatus.PAUSED.value }] = [] := by
  refine ⟨rfl, rfl, rfl, rfl⟩

/-! ## The priority queue (`queue.PriorityQueue` over CPython `heapq`)

`submit_*_job` does `self.job_queue.put((job.priority.value, job))` and the
worker loop does `self.job_queue.get(...)`; `queue.PriorityQueue` stores
entries in a list managed by `heapq.heappush` / `heapq.heappop`.  A queue
entry is modelled as `(priority value, submission sequence number)`.

Python compares entries as tuples: first the priority values; on a tie it
falls through to `TranscriptionJob.__lt__` (lines 92–94), which again
compares only `priority.value`, so two equal-priority entries are never
`<`-related in either direction.  Hence the effective strict order is
comparison of the priority components alone.

`siftdownFuel`/`siftupFuel` transcribe CPython's `heapq._siftdown` and
`heapq._siftup`; the fuel argument is only an upper bound on the number of
loop iterations (`pos` strictly decreases in `_siftdown`, and `pos < endpos`
strictly increases in `_siftup`), making the recursion structural. -/

abbrev QEntry := Nat × Nat

/-- Effective order on `(priority.value, job)` queue entries (see above). -/
def entryLt (a b : QEntry) : Bool := a.1 < b.1

/-- CPython `heapq._siftdown(heap, startpos, pos)` with `newitem = heap[pos]`
passed explicitly (the slot is overwritten before it is ever read). -/
def siftdownFuel : Nat → List QEntry → Nat → Nat → QEntry → List QEntry
  | 0, heap, _, pos, newitem => heap.set pos newitem
  | fuel + 1, heap, startpos, pos, newitem =>
    if startpos < pos then
      let parentpos := (pos - 1) / 2
      let parent := heap.getD parentpos (0, 0)
      if entryLt newitem parent then
        siftdownFuel fuel (heap.set pos parent) startpos parentpos newitem
      else heap.set pos newitem
    else heap.set pos newitem

def siftdown (heap : List QEntry) (startpos pos : Nat) (newitem : QEntry) :
    List QEntry :=
  siftdownFuel pos heap startpos pos newitem

/-- CPython `heapq.heappush`. -/
def heappush (heap : List QEntry) (item : QEntry) : List QEntry :=
  siftdown (heap ++ [item]) 0 heap.length item

/-- CPython `heapq._siftup(heap, pos)`: bubble the smaller child up until a
leaf, then restore the invariant with `_siftdown` back to `startpos`. -/
def siftupFuel : Nat → List QEntry → Nat → Nat → QEntry → Nat → List QEntry
  | 0, heap, startpos, pos, newitem, _ => siftdown heap startpos pos newitem
  | fuel + 1, heap, startpos, pos, newitem, endpos =>
    let childpos := 2 * pos + 1
    if childpos < endpos then
      let rightpos := childpos + 1
      let c :=
        if rightpos < endpos &&
            !entryLt (heap.getD childpos (0, 0)) (heap.getD rightpos (0, 0))
        then rightpos
        else childpos
      siftupFuel fuel (heap.set pos (heap.getD c (0, 0))) startpos c newitem
        endpos
    else siftdown heap startpos pos newitem

def siftup (heap : List QEntry) (pos : Nat) (newitem : QEntry) (endpos : Nat) :
    List QEntry :=
  siftupFuel endpos heap pos pos newitem endpos

/-- CPython `heapq.heappop`. -/
def heappop (heap : List QEntry) : Option (QEntry × List QEntry) :=
  match heap with
  | [] => none
  | _ :: _ =>
    let lastelt := heap.getD (heap.length - 1) (0, 0)
    let rest := heap.dropLast
    match rest with
    | [] => some (lastelt, [])
    | _ :: _ => some (rest.getD 0 (0, 0),
        siftup (rest.set 0 lastelt) 0 lastelt rest.length)

/-- Pop every entry of the heap in order. -/
def heapPopAll : Nat → List QEntry → List QEntry
  | 0, _ => []
  | fuel + 1, heap =>
    match heappop heap with
    | none => []
    | some (e, rest) => e :: heapPopAll fuel rest

def heapDrain (heap : List QEntry) : List QEntry :=
  heapPopAll heap.length heap

/-- C4 (counterexample).  The claim — equal-priority jobs are always
dequeued in submission (FIFO) order — fails at four NORMAL-priority jobs
submitted in order 0, 1, 2, 3 to an empty queue: the heap pops them as
0, 2, 1, 3. -/
theorem C4_fifo_counterexample :
    (heapDrain (List.foldl heappush []
        [(1, 0), (1, 1), (1, 2), (1, 3)])).map (fun e => e.2)
      = [0, 2, 1, 3] ∧
    (heapDrain (List.foldl heappush []
        [(1, 0), (1, 1), (1, 2), (1, 3)])).map (fun e => e.2)
      ≠ [0, 1, 2, 3] := by
  exact ⟨rfl, by decide⟩

/-- Two entries sharing a priority value are never `<`-related: the tuple
comparison falls through to `TranscriptionJob.__lt__`, which compares the
equal priority values. -/
theorem entryLt_same_prio (p x y : Nat) : entryLt (p, x) (p, y) = false := by
  simp [entryLt]

/-- C4 (amended).  FIFO within equal priority holds only for small
queues: any one, two, or three equal-priority jobs submitted in order to
an empty queue — whatever their shared priority value and identities —
are dequeued in submission order (covering the spec's three-job scenario
A, B, C), but it fails from four jobs on: four equal-priority jobs
submitted in order 0, 1, 2, 3 are dequeued 0, 2, 1, 3. -/
theorem C4_fifo_three_jobs_only :
    (∀ p a : Nat, heapDrain (List.foldl heappush [] [(p, a)]) = [(p, a)]) ∧
    (∀ p a b : Nat,
      heapDrain (List.foldl heappush [] [(p, a), (p, b)])
        = [(p, a), (p, b)]) ∧
    (∀ p a b c : Nat,
      heapDrain (List.foldl heappush [] [(p, a), (p, b), (p, c)])
        = [(p, a), (p, b), (p, c)]) ∧
    (heapDrain (List.foldl heappush []
        [(1, 0), (1, 1), (1, 2), (1, 3)])).map (fun e => e.2)
      = [0, 2, 1, 3] := by
  refine ⟨?_, ?_, ?_, rfl⟩
  · intro p a
    simp [heapDrain, heapPopAll, heappop, heappush, siftdown, siftup,
      siftdownFuel, siftupFuel, entryLt_same_prio]
  · intro p a b
    simp [heapDrain, heapPopAll, heappop, heappush, siftdown, siftup,
      siftdownFuel, siftupFuel, entryLt_same_prio]
  · intro p a b c
    simp [heapDrain, heapPopAll, heappop, heappush, siftdown, siftup,
      siftdownFuel, siftupFuel, entryLt_same_prio]

/-! ## One processing session (`_process_job` / `_transcribe_file`)

A session is the worker's handling of one dequeued job while it holds the
model lock.  The inference engine is abstracted as `engine : Nat → String`
(the stripped text `whisper.transcribe` returns for chunk `k` of the file —
deterministic for fixed audio).  The two concurrent inputs read at each
chunk boundary — `pause_event` (line 523) and the job's status possibly set
to CANCELLED by `cancel_job` (line 550) — are abstracted as an observation
function `env : Nat → BoundaryObs`.  The in-memory job object keeps the
fields the claims mention; note that the source never assigns
`job.current_chunk_index` (it is only read at line 501), so it stays `0`
in memory across a pause. -/

structure MemJob where
  id : String
  priority : JobPriority
  status : JobStatus
  hasAudio : Bool
  file_path : Option String
  current_chunk_index : Nat := 0
  result_text : String := ""
  error_message : String := ""
deriving DecidableEq, Repr

/-- What the two boundary checks at lines 523 and 550 observe before
chunk `k`: the pause event still set and no cancellation (`proceed`), the
pause event cleared (`pauseCleared` — checked first), or the job's status
found to be CANCELLED (`cancelObserved`). -/
inductive BoundaryObs
  | proceed
  | pauseCleared
  | cancelObserved
deriving DecidableEq, Repr

inductive FileOutcome
  | completed (text : String)
  | paused (k : Nat)
  | cancelledErr (k : Nat)
deriving DecidableEq, Repr

structure FileRes where
  outcome : FileOutcome
  chunkStore : List ChunkRec
  jobTable : List JobRec
  requeued : List (Nat × String)
deriving Repr

/-- The chunk loop of `_transcribe_file` (lines 519–604), recursing on the
number of chunks left (`remaining = total − k`, zero exactly when the
Python `for` loop ends). -/
def transcribeChunksAux (engine : Nat → String) (env : Nat → BoundaryObs)
    (jid : String) (prio : JobPriority) (chunks : List AudioChunk)
    (hasDb : Bool) :
    Nat → Nat → List ChunkRec → List JobRec → List String → FileRes
  | 0, _, store, table, parts =>
    ⟨.completed (String.intercalate " " parts), store, table, []⟩
  | remaining + 1, k, store, table, parts =>
    match env k with
    | .pauseCleared =>
      let table1 := if hasDb then
          update_transcription_job table jid
            { status := some JobStatus.PAUSED.value,
              current_chunk_index := some k }
        else table
      ⟨.paused k, store, table1, [(prio.value, jid)]⟩
    | .cancelObserved => ⟨.cancelledErr k, store, table, []⟩
    | .proceed =>
      let c := chunks.getD k ⟨0, 0, 0⟩
      let txt := engine k
      let store1 := if hasDb then
          add_transcription_chunk store ⟨jid, k, txt, c.startTime, c.endTime⟩
        else store
      let table1 := if hasDb then
          update_transcription_job table jid
            { completed_chunks := some (k + 1),
              current_chunk_index := some (k + 1) }
        else table
      transcribeChunksAux engine env jid prio chunks hasDb remaining (k + 1)
        store1 table1 (parts ++ [txt])

/-- Lines 499–513: resume position.  `start = job.current_chunk_index`;
when it is `0` and a store is available, the persisted chunks of the job
determine the restart point instead. -/
def startChunkIndex (job : MemJob) (hasDb : Bool) (store : List ChunkRec) :
    Nat :=
  if job.current_chunk_index = 0 ∧ hasDb then
    (get_job_chunks store job.id).length
  else job.current_chunk_index

/-- `_transcribe_file` on a file of `nSamples` samples. -/
def transcribeFile (engine : Nat → String) (env : Nat → BoundaryObs)
    (job : MemJob) (hasDb : Bool) (store : List ChunkRec)
    (table : List JobRec) (nSamples : Nat) : FileRes :=
  let chunks := splitChunks nSamples
  let total := chunks.length
  let start := startChunkIndex job hasDb store
  transcribeChunksAux engine env job.id job.priority chunks hasDb
    (total - start) start store table []

inductive JobEvent
  | started (id : String)
  | pausedEv (id : String) (k : Nat)
  | completedEv (id : String) (text : String)
  | failedEv (id : String) (msg : String)
deriving DecidableEq, Repr

structure ProcRes where
  job : MemJob
  chunkStore : List ChunkRec
  jobTable : List JobRec
  requeued : List (Nat × String)
  events : List JobEvent
deriving Repr

/-- `_process_job` (lines 346–429): set RUNNING, dispatch on the job's
source, then the `JobPausedException` handler (pause is not an error) and
the generic `except Exception` handler (everything else becomes FAILED
with `str(e)` as the message — including the `RuntimeError("Job
cancelled")` raised at a cancelled chunk boundary, and the
`ValueError("Job has neither audio_data nor file_path")` for a sourceless
job).  `pttText` abstracts the whole-buffer transcription of a PTT job,
`audioSamples` the loaded sample count of a file path. -/
def processJob (engine : Nat → String) (env : Nat → BoundaryObs)
    (pttText : String) (audioSamples : String → Nat) (hasDb : Bool)
    (store : List ChunkRec) (table : List JobRec) (job : MemJob) : ProcRes :=
  let job1 := { job with status := JobStatus.RUNNING }
  let table1 := if hasDb then
      update_transcription_job table job.id
        { status := some JobStatus.RUNNING.value }
    else table
  if job.hasAudio then
    let j2 := { job1 with
      result_text := pttText
      status := if job1.status = .CANCELLED then job1.status
        else .COMPLETED }
    let table2 := if hasDb then
        update_transcription_job table1 job.id
          { status := some JobStatus.COMPLETED.value,
            result_text := some pttText }
      else table1
    ⟨j2, store, table2, [], [.started job.id, .completedEv job.id pttText]⟩
  else
    match job.file_path with
    | some path =>
      let fr := transcribeFile engine env job1 hasDb store table1
        (audioSamples path)
      match fr.outcome with
      | .completed t =>
        let j2 := { job1 with
          result_text := t
          status := if job1.status = .CANCELLED then job1.status
            else .COMPLETED }
        let table2 := if hasDb then
            update_transcription_job fr.jobTable job.id
              { status := some JobStatus.COMPLETED.value,
                result_text := some t }
          else fr.jobTable
        ⟨j2, fr.chunkStore, table2, fr.requeued,
          [.started job.id, .completedEv job.id t]⟩
      | .paused k =>
        let j2 := { job1 with status := JobStatus.PAUSED }
        ⟨j2, fr.chunkStore, fr.jobTable, fr.requeued,
          [.started job.id, .pausedEv job.id k]⟩
      | .cancelledErr _ =>
        let j2 := { job1 with
          status := JobStatus.FAILED
          error_message := "Job cancelled" }
        let table2 := if hasDb then
            update_transcription_job fr.jobTable job.id
              { status := some JobStatus.FAILED.value,
                error_message := some "Job cancelled" }
          else fr.jobTable
        ⟨j2, fr.chunkStore, table2, fr.requeued,
          [.started job.id, .failedEv job.id "Job cancelled"]⟩
    | none =>
      let j2 := { job1 with
        status := JobStatus.FAILED
        error_message := "Job has neither audio_data nor file_path" }
      let table2 := if hasDb then
          update_transcription_job table1 job.id
            { status := some JobStatus.FAILED.value,
              error_message := some "Job has neither audio_data nor file_path" }
        else table1
      ⟨j2, store, table2, [],
        [.started job.id,
          .failedEv job.id "Job has neither audio_data nor file_path"]⟩

/-! ## The scheduler as a transition system

Shared mutable state of `TranscriptionQueueManager`: the set of job
objects (with their statuses), the priority queue's contents, the model
lock, `current_job`, the `pause_event` flag, and the persisted job table.
Steps are the points where this shared state changes: the caller-side
operations (`submit_ptt_job`, `submit_file_job`, `cancel_job`) and the
worker loop's phases (`_process_queue_loop` / `_process_job` /
`_transcribe_file`).  The queue is kept as a multiset of entries and a
dequeue may pick any entry, over-approximating the heap order, which is
irrelevant to the invariants proved here. -/

structure SysJob where
  id : String
  priority : JobPriority
  status : JobStatus
  hasAudio : Bool
  file_path : Option String
deriving DecidableEq, Repr

inductive WPhase
  | idle
  | acquiring (jid : String)
  | starting (jid : String)
  | running (jid : String)
  | processing (jid : String) (k : Nat) (total : Nat)
deriving DecidableEq, Repr

structure SchedState where
  jobs : List SysJob
  queue : List (Nat × String)
  lockHeld : Bool
  currentId : Option String
  pauseSet : Bool
  hasDb : Bool
  jobTable : List JobRec
  phase : WPhase
deriving Repr

def findJob (s : SchedState) (jid : String) : Option SysJob :=
  s.jobs.find? (fun j => j.id == jid)

def statusOf (s : SchedState) (jid : String) : Option JobStatus :=
  (findJob s jid).map (fun j => j.status)

def setStatus (s : SchedState) (jid : String) (st : JobStatus) : SchedState :=
  { s with
    jobs := s.jobs.map
      (fun j => if j.id == jid then { j with status := st } else j) }

def persistJob (s : SchedState) (jid : String) (u : JobUpdate) : SchedState :=
  if s.hasDb then
    { s with jobTable := update_transcription_job s.jobTable jid u }
  else s

def getJobRec (table : List JobRec) (jid : String) : Option JobRec :=
  table.find? (fun r => r.id == jid)

/-- `submit_ptt_job` line 194: is there a current job of non-HIGH
priority (`self.current_job.priority.value > JobPriority.HIGH.value`)? -/
def currentNonHigh (s : SchedState) : Bool :=
  match s.currentId with
  | some cid =>
    match findJob s cid with
    | some j => decide (JobPriority.HIGH.value < j.priority.value)
    | none => false
  | none => false

/-- `submit_ptt_job` (lines 159–214): create a HIGH PENDING in-memory job,
put it on the queue, clear `pause_event` if the current job is non-HIGH,
persist the record when a store is attached. -/
def submitPttFun (s : SchedState) (jid : String) : SchedState :=
  let job : SysJob := ⟨jid, .HIGH, .PENDING, true, none⟩
  let s1 := { s with
    jobs := s.jobs ++ [job]
    queue := s.queue ++ [(JobPriority.HIGH.value, jid)] }
  let s2 := if currentNonHigh s1 then { s1 with pauseSet := false } else s1
  if s2.hasDb then
    { s2 with
      jobTable := add_transcription_job s2.jobTable
        { id := jid, priority := JobPriority.HIGH.value,
          status := JobStatus.PENDING.value, file_path := none,
          language := none } }
  else s2

/-- `submit_file_job` (lines 216–270). -/
def submitFileFun (s : SchedState) (jid : String) (path : String)
    (prio : JobPriority) : SchedState :=
  let job : SysJob := ⟨jid, prio, .PENDING, false, some path⟩
  let s1 := { s with
    jobs := s.jobs ++ [job]
    queue := s.queue ++ [(prio.value, jid)] }
  if s1.hasDb then
    { s1 with
      jobTable := add_transcription_job s1.jobTable
        (submitFileJobRec jid prio path none) }
  else s1

/-- `cancel_job` (lines 272–285): only the job currently referenced by
`self.current_job` is ever marked CANCELLED; a queued job is untouched
(the code comments that it "will be skipped in processing", but nothing
ever sets its status). -/
def cancelJobFun (s : SchedState) (jid : String) : SchedState :=
  if s.currentId = some jid then setStatus s jid .CANCELLED else s

/-- Worker loop lines 310–314: a dequeued entry whose job was marked
CANCELLED while queued is discarded. -/
def dequeueSkipFun (s : SchedState) (e : Nat × String) : SchedState :=
  { s with queue := s.queue.erase e }

/-- Worker loop lines 316–318: dequeue an entry and set `current_job`. -/
def dequeuePickFun (s : SchedState) (e : Nat × String) : SchedState :=
  { s with
    queue := s.queue.erase e
    currentId := some e.2
    phase := .acquiring e.2 }

/-- Worker loop line 322: `with self.model_lock` acquires the lock. -/
def acquireLockFun (s : SchedState) (jid : String) : SchedState :=
  { s with lockHeld := true, phase := .starting jid }

/-- `_process_job` lines 354–365: mark RUNNING and persist it. -/
def startRunFun (s : SchedState) (jid : String) : SchedState :=
  let s1 := setStatus s jid .RUNNING
  let s2 := persistJob s1 jid { status := some JobStatus.RUNNING.value }
  { s2 with phase := .running jid }

/-- Enter the chunk loop of `_transcribe_file` at resume position `k` of
`total` chunks (audio length and store contents abstracted). -/
def beginChunksFun (s : SchedState) (jid : String) (k total : Nat) :
    SchedState :=
  { s with phase := .processing jid k total }

/-- Common postlude of every `_process_job` return path: the `with
self.model_lock` block exits (guaranteed lock release), `current_job` is
cleared, and if the finished job was HIGH priority `pause_event` is set
again (lines 326–333). -/
def finishReleaseFun (s : SchedState) (jid : String) : SchedState :=
  let pause' := match findJob s jid with
    | some j => if j.priority = .HIGH then true else s.pauseSet
    | none => s.pauseSet
  { s with
    lockHeld := false
    currentId := none
    pauseSet := pause'
    phase := .idle }

/-- `_process_job` lines 381–397: mark COMPLETED unless the status was
concurrently set to CANCELLED, then release. -/
def completeJobFun (s : SchedState) (jid : String) : SchedState :=
  let s1 :=
    if statusOf s jid = some .CANCELLED then s
    else persistJob (setStatus s jid .COMPLETED) jid
      { status := some JobStatus.COMPLETED.value }
  finishReleaseFun s1 jid

/-- `_transcribe_file` lines 522–547 plus the `JobPausedException` handler:
at a boundary with `pause_event` cleared, mark PAUSED, persist the chunk
index as checkpoint, re-enqueue at the job's own priority, and release the
lock without marking the job failed. -/
def pauseYieldFun (s : SchedState) (jid : String) (k : Nat) : SchedState :=
  let s1 := setStatus s jid .PAUSED
  let s2 := persistJob s1 jid
    { status := some JobStatus.PAUSED.value, current_chunk_index := some k }
  let prio := match findJob s jid with
    | some j => j.priority.value
    | none => JobPriority.LOW.value
  let s3 := { s2 with queue := s2.queue ++ [(prio, jid)] }
  finishReleaseFun s3 jid

/-- A failure inside `_process_job`'s `try` (adapter exception, file I/O
failure, or the `RuntimeError("Job cancelled")` of a cancelled boundary):
the generic handler marks the job FAILED with `str(e)` and releases. -/
def failJobFun (s : SchedState) (jid : String) (msg : String) : SchedState :=
  let s1 := setStatus s jid .FAILED
  let s2 := persistJob s1 jid
    { status := some JobStatus.FAILED.value, error_message := some msg }
  finishReleaseFun s2 jid

/-- `_transcribe_file` lines 554–604: transcribe chunk `k`, persist the
chunk and the progress counters, continue with chunk `k + 1`. -/
def chunkAdvanceFun (s : SchedState) (jid : String) (k total : Nat) :
    SchedState :=
  let s1 := persistJob s jid
    { completed_chunks := some (k + 1), current_chunk_index := some (k + 1) }
  { s1 with phase := .processing jid (k + 1) total }

/-- The transitions of the scheduler.  Caller-side operations may fire in
any phase (they run on caller threads); worker transitions are guarded by
the worker's phase.  Job ids are fresh at submission (`uuid4`). -/
inductive Step : SchedState → SchedState → Prop
  | submitPtt (s : SchedState) (jid : String)
      (hfresh : findJob s jid = none) :
      Step s (submitPttFun s jid)
  | submitFile (s : SchedState) (jid path : String) (prio : JobPriority)
      (hfresh : findJob s jid = none) :
      Step s (submitFileFun s jid path prio)
  | cancel (s : SchedState) (jid : String) :
      Step s (cancelJobFun s jid)
  | dequeueSkip (s : SchedState) (e : Nat × String)
      (hmem : e ∈ s.queue) (hph : s.phase = .idle)
      (hcanc : statusOf s e.2 = some .CANCELLED) :
      Step s (dequeueSkipFun s e)
  | dequeuePick (s : SchedState) (e : Nat × String)
      (hmem : e ∈ s.queue) (hph : s.phase = .idle)
      (hcanc : statusOf s e.2 ≠ some .CANCELLED) :
      Step s (dequeuePickFun s e)
  | acquire (s : SchedState) (jid : String)
      (hph : s.phase = .acquiring jid) (hl : s.lockHeld = false) :
      Step s (acquireLockFun s jid)
  | startRun (s : SchedState) (jid : String)
      (hph : s.phase = .starting jid) :
      Step s (startRunFun s jid)
  | beginChunks (s : SchedState) (jid : String) (k total : Nat)
      (hph : s.phase = .running jid) (hk : k ≤ total)
      (hfile : ∃ j, findJob s jid = some j ∧ j.hasAudio = false ∧
        j.file_path ≠ none) :
      Step s (beginChunksFun s jid k total)
  | pttFinish (s : SchedState) (jid : String)
      (hph : s.phase = .running jid)
      (hptt : ∃ j, findJob s jid = some j ∧ j.hasAudio = true) :
      Step s (completeJobFun s jid)
  | noSource (s : SchedState) (jid : String)
      (hph : s.phase = .running jid)
      (hno : ∃ j, findJob s jid = some j ∧ j.hasAudio = false ∧
        j.file_path = none) :
      Step s (failJobFun s jid "Job has neither audio_data nor file_path")
  | chunkAdvance (s : SchedState) (jid : String) (k total : Nat)
      (hph : s.phase = .processing jid k total) (hk : k < total)
      (hp : s.pauseSet = true) (hs : statusOf s jid ≠ some .CANCELLED) :
      Step s (chunkAdvanceFun s jid k total)
  | pauseYield (s : SchedState) (jid : String) (k total : Nat)
      (hph : s.phase = .processing jid k total) (hk : k < total)
      (hp : s.pauseSet = false) :
      Step s (pauseYieldFun s jid k)
  | cancelBoundary (s : SchedState) (jid : String) (k total : Nat)
      (hph : s.phase = .processing jid k total) (hk : k < total)
      (hp : s.pauseSet = true) (hs : statusOf s jid = some .CANCELLED) :
      Step s (failJobFun s jid "Job cancelled")
  | adapterRaise (s : SchedState) (jid : String) (k total : Nat)
      (msg : String)
      (hph : s.phase = .processing jid k total) (hk : k < total) :
      Step s (failJobFun s jid msg)
  | finishChunks (s : SchedState) (jid : String) (total : Nat)
      (hph : s.phase = .processing jid total total) :
      Step s (completeJobFun s jid)

def initState (db : Bool) : SchedState :=
  { jobs := [], queue := [], lockHeld := false, currentId := none,
    pauseSet := true, hasDb := db, jobTable := [], phase := .idle }

def Reachable (db : Bool) (s : SchedState) : Prop :=
  Relation.ReflTransGen Step (initState db) s

def noRunning (s : SchedState) : Prop :=
  ∀ j ∈ s.jobs, j.status ≠ JobStatus.RUNNING

def onlyRunning (s : SchedState) (jid : String) : Prop :=
  ∀ j ∈ s.jobs, j.status = JobStatus.RUNNING → j.id = jid

/-- The inductive invariant: job ids are distinct, and each worker phase
pins down the lock, the `current_job` reference, and which job (if any)
may be RUNNING. -/
def Inv (s : SchedState) : Prop :=
  (s.jobs.map (fun j => j.id)).Nodup ∧
  (s.phase = .idle →
    s.lockHeld = false ∧ s.currentId = none ∧ noRunning s) ∧
  (∀ jid, s.phase = .acquiring jid →
    s.lockHeld = false ∧ s.currentId = some jid ∧ noRunning s) ∧
  (∀ jid, s.phase = .starting jid →
    s.lockHeld = true ∧ s.currentId = some jid ∧ noRunning s) ∧
  (∀ jid, s.phase = .running jid →
    s.lockHeld = true ∧ s.currentId = some jid ∧ onlyRunning s jid) ∧
  (∀ jid k total, s.phase = .processing jid k total →
    s.lockHeld = true ∧ s.currentId = some jid ∧ onlyRunning s jid)

/-! ### Facts about the state-update functions -/

theorem setStatus_jobs (s : SchedState) (jid : String) (st : JobStatus) :
    (setStatus s jid st).jobs =
      s.jobs.map (fun j => if j.id == jid then { j with status := st } else j) :=
  rfl

theorem setStatus_map_id (s : SchedState) (jid : String) (st : JobStatus) :
    (setStatus s jid st).jobs.map (fun j => j.id)
      = s.jobs.map (fun j => j.id) := by
  rw [setStatus_jobs, List.map_map]
  refine List.map_congr_left fun j hj => ?_
  simp only [Function.comp_apply]
  split <;> rfl

theorem persistJob_jobs (s : SchedState) (jid : String) (u : JobUpdate) :
    (persistJob s jid u).jobs = s.jobs := by
  unfold persistJob; split <;> rfl

theorem persistJob_lockHeld (s : SchedState) (jid : String) (u : JobUpdate) :
    (persistJob s jid u).lockHeld = s.lockHeld := by
  unfold persistJob; split <;> rfl

theorem persistJob_currentId (s : SchedState) (jid : String) (u : JobUpdate) :
    (persistJob s jid u).currentId = s.currentId := by
  unfold persistJob; split <;> rfl

theorem persistJob_queue (s : SchedState) (jid : String) (u : JobUpdate) :
    (persistJob s jid u).queue = s.queue := by
  unfold persistJob; split <;> rfl

theorem persistJob_phase (s : SchedState) (jid : String) (u : JobUpdate) :
    (persistJob s jid u).phase = s.phase := by
  unfold persistJob; split <;> rfl

theorem noRunning_of_eq (s s' : SchedState) (h : s'.jobs = s.jobs)
    (hn : noRunning s) : noRunning s' := by
  unfold noRunning at *
  rw [h]
  exact hn

theorem onlyRunning_of_eq (s s' : SchedState) (jid : String)
    (h : s'.jobs = s.jobs) (hn : onlyRunning s jid) : onlyRunning s' jid := by
  unfold onlyRunning at *
  rw [h]
  exact hn

theorem noRunning_setStatus (s : SchedState) (jid : String) (st : JobStatus)
    (hst : st ≠ JobStatus.RUNNING) (h : noRunning s) :
    noRunning (setStatus s jid st) := by
  intro j' hj'
  rw [setStatus_jobs] at hj'
  simp only [List.mem_map] at hj'
  obtain ⟨j, hj, rfl⟩ := hj'
  by_cases hid : j.id = jid
  · simpa [hid] using hst
  · simpa [hid] using h j hj

theorem onlyRunning_setStatus_running (s : SchedState) (jid : String)
    (h : noRunning s) : onlyRunning (setStatus s jid .RUNNING) jid := by
  intro j' hj' hrun
  rw [setStatus_jobs] at hj'
  simp only [List.mem_map] at hj'
  obtain ⟨j, hj, rfl⟩ := hj'
  by_cases hid : j.id = jid
  · simp [hid]
  · simp [hid] at hrun
    exact absurd hrun (h j hj)

theorem onlyRunning_setStatus_other (s : SchedState) (jid : String)
    (st : JobStatus) (tgt : String) (hst : st ≠ JobStatus.RUNNING)
    (h : onlyRunning s tgt) : onlyRunning (setStatus s jid st) tgt := by
  intro j' hj' hrun
  rw [setStatus_jobs] at hj'
  simp only [List.mem_map] at hj'
  obtain ⟨j, hj, rfl⟩ := hj'
  by_cases hid : j.id = jid
  · simp [hid] at hrun
    exact absurd hrun hst
  · simp [hid] at hrun ⊢
    exact h j hj hrun

theorem noRunning_setStatus_of_only (s : SchedState) (jid : String)
    (st : JobStatus) (hst : st ≠ JobStatus.RUNNING) (h : onlyRunning s jid) :
    noRunning (setStatus s jid st) := by
  intro j' hj'
  rw [setStatus_jobs] at hj'
  simp only [List.mem_map] at hj'
  obtain ⟨j, hj, rfl⟩ := hj'
  by_cases hid : j.id = jid
  · simpa [hid] using hst
  · simp [hid]
    intro hrun
    exact absurd (h j hj hrun) hid

theorem find?_id_of_mem (l : List SysJob)
    (hnd : (l.map (fun j => j.id)).Nodup) (j : SysJob) (hj : j ∈ l) :
    l.find? (fun x => x.id == j.id) = some j := by
  induction l with
  | nil => cases hj
  | cons a l ih =>
    rw [List.map_cons, List.nodup_cons] at hnd
    rcases List.mem_cons.mp hj with rfl | hj'
    · simp
    · have hne : ¬(a.id == j.id) = true := by
        simp only [beq_iff_eq]
        intro he
        exact hnd.1 (he ▸ List.mem_map_of_mem (fun x => x.id) hj')
      have hstep : List.find? (fun x => x.id == j.id) (a :: l)
          = List.find? (fun x => x.id == j.id) l :=
        List.find?_cons_of_neg l hne
      rw [hstep]
      exact ih hnd.2 hj'

theorem noRunning_of_only_cancelled (s : SchedState) (jid : String)
    (hnd : (s.jobs.map (fun j => j.id)).Nodup) (h : onlyRunning s jid)
    (hc : statusOf s jid = some .CANCELLED) : noRunning s := by
  intro j hj hrun
  have hid := h j hj hrun
  have hfind : findJob s j.id = some j := find?_id_of_mem s.jobs hnd j hj
  rw [hid] at hfind
  rw [statusOf, hfind] at hc
  simp [hrun] at hc

theorem finishReleaseFun_phase (s : SchedState) (jid : String) :
    (finishReleaseFun s jid).phase = .idle := rfl

theorem finishReleaseFun_lockHeld (s : SchedState) (jid : String) :
    (finishReleaseFun s jid).lockHeld = false := rfl

theorem finishReleaseFun_currentId (s : SchedState) (jid : String) :
    (finishReleaseFun s jid).currentId = none := rfl

theorem completeJobFun_jobs (s : SchedState) (jid : String) :
    (completeJobFun s jid).jobs =
      if statusOf s jid = some .CANCELLED then s.jobs
      else (setStatus s jid .COMPLETED).jobs := by
  unfold completeJobFun
  split
  · rfl
  · exact persistJob_jobs _ _ _

theorem pauseYieldFun_jobs (s : SchedState) (jid : String) (k : Nat) :
    (pauseYieldFun s jid k).jobs = (setStatus s jid .PAUSED).jobs :=
  persistJob_jobs _ _ _

theorem failJobFun_jobs (s : SchedState) (jid : String) (msg : String) :
    (failJobFun s jid msg).jobs = (setStatus s jid .FAILED).jobs :=
  persistJob_jobs _ _ _

theorem startRunFun_jobs (s : SchedState) (jid : String) :
    (startRunFun s jid).jobs = (setStatus s jid .RUNNING).jobs :=
  persistJob_jobs _ _ _

theorem startRunFun_lockHeld (s : SchedState) (jid : String) :
    (startRunFun s jid).lockHeld = s.lockHeld :=
  persistJob_lockHeld _ _ _

theorem startRunFun_currentId (s : SchedState) (jid : String) :
    (startRunFun s jid).currentId = s.currentId :=
  persistJob_currentId _ _ _

theorem chunkAdvanceFun_jobs (s : SchedState) (jid : String) (k total : Nat) :
    (chunkAdvanceFun s jid k total).jobs = s.jobs :=
  persistJob_jobs _ _ _

theorem chunkAdvanceFun_lockHeld (s : SchedState) (jid : String)
    (k total : Nat) :
    (chunkAdvanceFun s jid k total).lockHeld = s.lockHeld :=
  persistJob_lockHeld _ _ _

theorem chunkAdvanceFun_currentId (s : SchedState) (jid : String)
    (k total : Nat) :
    (chunkAdvanceFun s jid k total).currentId = s.currentId :=
  persistJob_currentId _ _ _

theorem submitPttFun_jobs (s : SchedState) (jid : String) :
    (submitPttFun s jid).jobs
      = s.jobs ++ [⟨jid, .HIGH, .PENDING, true, none⟩] := by
  simp only [submitPttFun]
  split_ifs <;> rfl

theorem submitPttFun_phase (s : SchedState) (jid : String) :
    (submitPttFun s jid).phase = s.phase := by
  simp only [submitPttFun]
  split_ifs <;> rfl

theorem submitPttFun_lockHeld (s : SchedState) (jid : String) :
    (submitPttFun s jid).lockHeld = s.lockHeld := by
  simp only [submitPttFun]
  split_ifs <;> rfl

theorem submitPttFun_currentId (s : SchedState) (jid : String) :
    (submitPttFun s jid).currentId = s.currentId := by
  simp only [submitPttFun]
  split_ifs <;> rfl

theorem submitFileFun_jobs (s : SchedState) (jid path : String)
    (prio : JobPriority) :
    (submitFileFun s jid path prio).jobs
      = s.jobs ++ [⟨jid, prio, .PENDING, false, some path⟩] := by
  simp only [submitFileFun]
  split_ifs <;> rfl

theorem submitFileFun_phase (s : SchedState) (jid path : String)
    (prio : JobPriority) :
    (submitFileFun s jid path prio).phase = s.phase := by
  simp only [submitFileFun]
  split_ifs <;> rfl

theorem submitFileFun_lockHeld (s : SchedState) (jid path : String)
    (prio : JobPriority) :
    (submitFileFun s jid path prio).lockHeld = s.lockHeld := by
  simp only [submitFileFun]
  split_ifs <;> rfl

theorem submitFileFun_currentId (s : SchedState) (jid path : String)
    (prio : JobPriority) :
    (submitFileFun s jid path prio).currentId = s.currentId := by
  simp only [submitFileFun]
  split_ifs <;> rfl

theorem cancelJobFun_phase (s : SchedState) (jid : String) :
    (cancelJobFun s jid).phase = s.phase := by
  unfold cancelJobFun
  split <;> rfl

theorem cancelJobFun_lockHeld (s : SchedState) (jid : String) :
    (cancelJobFun s jid).lockHeld = s.lockHeld := by
  unfold cancelJobFun
  split <;> rfl

theorem cancelJobFun_currentId (s : SchedState) (jid : String) :
    (cancelJobFun s jid).currentId = s.currentId := by
  unfold cancelJobFun
  split <;> rfl

theorem cancelJobFun_jobs (s : SchedState) (jid : String) :
    (cancelJobFun s jid).jobs =
      if s.currentId = some jid then (setStatus s jid .CANCELLED).jobs
      else s.jobs := by
  unfold cancelJobFun
  split <;> rfl

theorem not_mem_map_id_of_fresh (s : SchedState) (jid : String)
    (hfresh : findJob s jid = none) :
    jid ∉ s.jobs.map (fun j => j.id) := by
  unfold findJob at hfresh
  rw [List.find?_eq_none] at hfresh
  simp only [List.mem_map]
  rintro ⟨j, hj, hid⟩
  have hne : j.id ≠ jid := by simpa using hfresh j hj
  exact hne hid

/-! ### The invariant is inductive -/

theorem Inv_idle_state (s' : SchedState) (hph : s'.phase = .idle)
    (hl : s'.lockHeld = false) (hc : s'.currentId = none)
    (hnd : (s'.jobs.map (fun j => j.id)).Nodup) (hnr : noRunning s') :
    Inv s' := by
  refine ⟨hnd, fun _ => ⟨hl, hc, hnr⟩, ?_, ?_, ?_, ?_⟩
  · intro jid h'
    rw [hph] at h'
    simp at h'
  · intro jid h'
    rw [hph] at h'
    simp at h'
  · intro jid h'
    rw [hph] at h'
    simp at h'
  · intro jid k total h'
    rw [hph] at h'
    simp at h'

theorem Inv_of_same_phase (s s' : SchedState)
    (hph : s'.phase = s.phase) (hl : s'.lockHeld = s.lockHeld)
    (hc : s'.currentId = s.currentId)
    (hnd : (s'.jobs.map (fun j => j.id)).Nodup)
    (hnr : noRunning s → noRunning s')
    (hor : ∀ t, onlyRunning s t → onlyRunning s' t)
    (hs : Inv s) : Inv s' := by
  obtain ⟨_, hidle, hacq, hstart, hrun, hproc⟩ := hs
  refine ⟨hnd, ?_, ?_, ?_, ?_, ?_⟩
  · intro h'
    rw [hph] at h'
    obtain ⟨a, b, c⟩ := hidle h'
    rw [hl, hc]
    exact ⟨a, b, hnr c⟩
  · intro jid h'
    rw [hph] at h'
    obtain ⟨a, b, c⟩ := hacq jid h'
    rw [hl, hc]
    exact ⟨a, b, hnr c⟩
  · intro jid h'
    rw [hph] at h'
    obtain ⟨a, b, c⟩ := hstart jid h'
    rw [hl, hc]
    exact ⟨a, b, hnr c⟩
  · intro jid h'
    rw [hph] at h'
    obtain ⟨a, b, c⟩ := hrun jid h'
    rw [hl, hc]
    exact ⟨a, b, hor jid c⟩
  · intro jid k total h'
    rw [hph] at h'
    obtain ⟨a, b, c⟩ := hproc jid k total h'
    rw [hl, hc]
    exact ⟨a, b, hor jid c⟩

theorem Inv_completeJob (s : SchedState) (jid : String)
    (hnd : (s.jobs.map (fun j => j.id)).Nodup) (honly : onlyRunning s jid) :
    Inv (completeJobFun s jid) := by
  apply Inv_idle_state _ rfl rfl rfl
  · rw [completeJobFun_jobs]
    split
    · exact hnd
    · rw [setStatus_map_id]
      exact hnd
  · unfold noRunning
    rw [completeJobFun_jobs]
    split
    · intro j hj
      exact noRunning_of_only_cancelled s jid hnd honly (by assumption) j hj
    · intro j hj
      exact noRunning_setStatus_of_only s jid .COMPLETED (by decide) honly j hj

theorem Inv_pauseYield (s : SchedState) (jid : String) (k : Nat)
    (hnd : (s.jobs.map (fun j => j.id)).Nodup) (honly : onlyRunning s jid) :
    Inv (pauseYieldFun s jid k) := by
  apply Inv_idle_state _ rfl rfl rfl
  · rw [pauseYieldFun_jobs, setStatus_map_id]
    exact hnd
  · unfold noRunning
    rw [pauseYieldFun_jobs]
    intro j hj
    exact noRunning_setStatus_of_only s jid .PAUSED (by decide) honly j hj

theorem Inv_failJob (s : SchedState) (jid : String) (msg : String)
    (hnd : (s.jobs.map (fun j => j.id)).Nodup) (honly : onlyRunning s jid) :
    Inv (failJobFun s jid msg) := by
  apply Inv_idle_state _ rfl rfl rfl
  · rw [failJobFun_jobs, setStatus_map_id]
    exact hnd
  · unfold noRunning
    rw [failJobFun_jobs]
    intro j hj
    exact noRunning_setStatus_of_only s jid .FAILED (by decide) honly j hj

theorem inv_init (db : Bool) : Inv (initState db) := by
  refine ⟨?_, ?_, ?_, ?_, ?_, ?_⟩ <;> simp [initState, noRunning]

theorem startRunFun_phase (s : SchedState) (jid : String) :
    (startRunFun s jid).phase = .running jid := rfl

theorem chunkAdvanceFun_phase (s : SchedState) (jid : String)
    (k total : Nat) :
    (chunkAdvanceFun s jid k total).phase = .processing jid (k + 1) total :=
  rfl

theorem nodup_map_id_append_fresh (s : SchedState) (job : SysJob)
    (hnd : (s.jobs.map (fun j => j.id)).Nodup)
    (hfresh : findJob s job.id = none) :
    ((s.jobs ++ [job]).map (fun j => j.id)).Nodup := by
  rw [List.map_append]
  rw [List.nodup_append]
  refine ⟨hnd, List.nodup_singleton _, ?_⟩
  intro a ha hb
  simp only [List.map_cons, List.map_nil, List.mem_singleton] at hb
  subst hb
  exact not_mem_map_id_of_fresh s job.id hfresh ha

theorem noRunning_append_job (s s' : SchedState) (job : SysJob)
    (hjobs : s'.jobs = s.jobs ++ [job]) (hst : job.status ≠ .RUNNING)
    (hn : noRunning s) : noRunning s' := by
  intro j hj
  rw [hjobs] at hj
  rcases List.mem_append.mp hj with h | h
  · exact hn j h
  · rw [List.mem_singleton] at h
    subst h
    exact hst

theorem onlyRunning_append_job (s s' : SchedState) (job : SysJob)
    (tgt : String) (hjobs : s'.jobs = s.jobs ++ [job])
    (hst : job.status ≠ .RUNNING) (ho : onlyRunning s tgt) :
    onlyRunning s' tgt := by
  intro j hj hrun
  rw [hjobs] at hj
  rcases List.mem_append.mp hj with h | h
  · exact ho j h hrun
  · rw [List.mem_singleton] at h
    subst h
    exact absurd hrun hst

/-- Every scheduler transition preserves the invariant. -/
theorem inv_step {s s' : SchedState} (hstep : Step s s') (hs : Inv s) :
    Inv s' := by
  have hnd := hs.1
  cases hstep with
  | submitPtt jid hfresh =>
    refine Inv_of_same_phase s _ (submitPttFun_phase s jid)
      (submitPttFun_lockHeld s jid) (submitPttFun_currentId s jid) ?_ ?_ ?_ hs
    · rw [submitPttFun_jobs]
      exact nodup_map_id_append_fresh s _ hnd hfresh
    · intro hn
      exact noRunning_append_job s _ _ (submitPttFun_jobs s jid)
        (fun h => JobStatus.noConfusion h) hn
    · intro t ho
      exact onlyRunning_append_job s _ _ t (submitPttFun_jobs s jid)
        (fun h => JobStatus.noConfusion h) ho
  | submitFile jid path prio hfresh =>
    refine Inv_of_same_phase s _ (submitFileFun_phase s jid path prio)
      (submitFileFun_lockHeld s jid path prio)
      (submitFileFun_currentId s jid path prio) ?_ ?_ ?_ hs
    · rw [submitFileFun_jobs]
      exact nodup_map_id_append_fresh s _ hnd hfresh
    · intro hn
      exact noRunning_append_job s _ _ (submitFileFun_jobs s jid path prio)
        (fun h => JobStatus.noConfusion h) hn
    · intro t ho
      exact onlyRunning_append_job s _ _ t
        (submitFileFun_jobs s jid path prio)
        (fun h => JobStatus.noConfusion h) ho
  | cancel jid =>
    refine Inv_of_same_phase s _ (cancelJobFun_phase s jid)
      (cancelJobFun_lockHeld s jid) (cancelJobFun_currentId s jid) ?_ ?_ ?_ hs
    · rw [cancelJobFun_jobs]
      split
      · rw [setStatus_map_id]
        exact hnd
      · exact hnd
    · intro hn
      unfold noRunning
      rw [cancelJobFun_jobs]
      split
      · exact noRunning_setStatus s jid .CANCELLED (by decide) hn
      · exact hn
    · intro t ho
      unfold onlyRunning
      rw [cancelJobFun_jobs]
      split
      · exact onlyRunning_setStatus_other s jid .CANCELLED t (by decide) ho
      · exact ho
  | dequeueSkip e hmem hph hcanc =>
    exact Inv_of_same_phase s _ rfl rfl rfl hnd (fun hn => hn)
      (fun t ho => ho) hs
  | dequeuePick e hmem hph hcanc =>
    obtain ⟨_, hidle, _, _, _, _⟩ := hs
    obtain ⟨hl, hc, hnr⟩ := hidle hph
    refine ⟨hnd, ?_, ?_, ?_, ?_, ?_⟩
    · intro h'
      simp [dequeuePickFun] at h'
    · intro jid h'
      simp only [dequeuePickFun] at h'
      simp only [WPhase.acquiring.injEq] at h'
      subst h'
      exact ⟨hl, rfl, hnr⟩
    · intro jid h'
      simp [dequeuePickFun] at h'
    · intro jid h'
      simp [dequeuePickFun] at h'
    · intro jid k total h'
      simp [dequeuePickFun] at h'
  | acquire jid hph hl =>
    obtain ⟨_, _, hacq, _, _, _⟩ := hs
    obtain ⟨_, hc, hnr⟩ := hacq jid hph
    refine ⟨hnd, ?_, ?_, ?_, ?_, ?_⟩
    · intro h'
      simp [acquireLockFun] at h'
    · intro jid' h'
      simp [acquireLockFun] at h'
    · intro jid' h'
      simp only [acquireLockFun, WPhase.starting.injEq] at h'
      subst h'
      exact ⟨rfl, hc, hnr⟩
    · intro jid' h'
      simp [acquireLockFun] at h'
    · intro jid' k total h'
      simp [acquireLockFun] at h'
  | startRun jid hph =>
    obtain ⟨_, _, _, hstart, _, _⟩ := hs
    obtain ⟨hl, hc, hnr⟩ := hstart jid hph
    refine ⟨?_, ?_, ?_, ?_, ?_, ?_⟩
    · rw [startRunFun_jobs, setStatus_map_id]
      exact hnd
    · intro h'
      rw [startRunFun_phase] at h'
      simp at h'
    · intro jid' h'
      rw [startRunFun_phase] at h'
      simp at h'
    · intro jid' h'
      rw [startRunFun_phase] at h'
      simp at h'
    · intro jid' h'
      rw [startRunFun_phase] at h'
      simp only [WPhase.running.injEq] at h'
      subst h'
      refine ⟨?_, ?_, ?_⟩
      · rw [startRunFun_lockHeld]
        exact hl
      · rw [startRunFun_currentId]
        exact hc
      · unfold onlyRunning
        rw [startRunFun_jobs]
        exact onlyRunning_setStatus_running s jid hnr
    · intro jid' k total h'
      rw [startRunFun_phase] at h'
      simp at h'
  | beginChunks jid k total hph hk hfile =>
    obtain ⟨_, _, _, _, hrun, _⟩ := hs
    obtain ⟨hl, hc, ho⟩ := hrun jid hph
    refine ⟨hnd, ?_, ?_, ?_, ?_, ?_⟩
    · intro h'
      simp [beginChunksFun] at h'
    · intro jid' h'
      simp [beginChunksFun] at h'
    · intro jid' h'
      simp [beginChunksFun] at h'
    · intro jid' h'
      simp [beginChunksFun] at h'
    · intro jid' k' total' h'
      simp only [beginChunksFun, WPhase.processing.injEq] at h'
      obtain ⟨h1, h2, h3⟩ := h'
      subst h1
      exact ⟨hl, hc, ho⟩
  | pttFinish jid hph hptt =>
    obtain ⟨_, _, _, _, hrun, _⟩ := hs
    exact Inv_completeJob s jid hnd (hrun jid hph).2.2
  | noSource jid hph hno =>
    obtain ⟨_, _, _, _, hrun, _⟩ := hs
    exact Inv_failJob s jid _ hnd (hrun jid hph).2.2
  | chunkAdvance jid k total hph hk hp hsc =>
    obtain ⟨_, _, _, _, _, hproc⟩ := hs
    obtain ⟨hl, hc, ho⟩ := hproc jid k total hph
    refine ⟨?_, ?_, ?_, ?_, ?_, ?_⟩
    · rw [chunkAdvanceFun_jobs]
      exact hnd
    · intro h'
      rw [chunkAdvanceFun_phase] at h'
      simp at h'
    · intro jid' h'
      rw [chunkAdvanceFun_phase] at h'
      simp at h'
    · intro jid' h'
      rw [chunkAdvanceFun_phase] at h'
      simp at h'
    · intro jid' h'
      rw [chunkAdvanceFun_phase] at h'
      simp at h'
    · intro jid' k' total' h'
      rw [chunkAdvanceFun_phase] at h'
      simp only [WPhase.processing.injEq] at h'
      obtain ⟨h1, h2, h3⟩ := h'
      subst h1
      refine ⟨?_, ?_, ?_⟩
      · rw [chunkAdvanceFun_lockHeld]
        exact hl
      · rw [chunkAdvanceFun_currentId]
        exact hc
      · unfold onlyRunning
        rw [chunkAdvanceFun_jobs]
        exact ho
  | pauseYield jid k total hph hk hp =>
    obtain ⟨_, _, _, _, _, hproc⟩ := hs
    exact Inv_pauseYield s jid k hnd (hproc jid k total hph).2.2
  | cancelBoundary jid k total hph hk hp hsc =>
    obtain ⟨_, _, _, _, _, hproc⟩ := hs
    exact Inv_failJob s jid _ hnd (hproc jid k total hph).2.2
  | adapterRaise jid k total msg hph hk =>
    obtain ⟨_, _, _, _, _, hproc⟩ := hs
    exact Inv_failJob s jid _ hnd (hproc jid k total hph).2.2
  | finishChunks jid total hph =>
    obtain ⟨_, _, _, _, _, hproc⟩ := hs
    exact Inv_completeJob s jid hnd (hproc jid total total hph).2.2

theorem reachable_inv (db : Bool) (s : SchedState) (h : Reachable db s) :
    Inv s := by
  induction h with
  | refl => exact inv_init db
  | tail hsteps hstep ih => exact inv_step hstep ih

/-- C1. In every reachable scheduler state at most one job has status
RUNNING (any two RUNNING jobs are the same job), and whenever the worker
is back at the top of its loop (phase `idle` — i.e. after every job,
whether it completed, paused, failed, or was cancelled) the exclusivity
lock is released. -/
theorem C1_running_exclusive (db : Bool) (s : SchedState)
    (h : Reachable db s) :
    (∀ j1 ∈ s.jobs, ∀ j2 ∈ s.jobs,
      j1.status = JobStatus.RUNNING → j2.status = JobStatus.RUNNING →
        j1 = j2) ∧
    (s.phase = .idle → s.lockHeld = false) ∧
    (∀ (t : SchedState) (jid : String) (k : Nat) (msg : String),
      (completeJobFun t jid).lockHeld = false ∧
      (pauseYieldFun t jid k).lockHeld = false ∧
      (failJobFun t jid msg).lockHeld = false) := by
  obtain ⟨hnd, hidle, hacq, hstart, hrun, hproc⟩ := reachable_inv db s h
  refine ⟨?_, ?_, fun t jid k msg => ⟨rfl, rfl, rfl⟩⟩
  · intro j1 hj1 j2 hj2 h1 h2
    cases hph : s.phase with
    | idle => exact absurd h1 ((hidle hph).2.2 j1 hj1)
    | acquiring jid => exact absurd h1 ((hacq jid hph).2.2 j1 hj1)
    | starting jid => exact absurd h1 ((hstart jid hph).2.2 j1 hj1)
    | running jid =>
      have e1 := (hrun jid hph).2.2 j1 hj1 h1
      have e2 := (hrun jid hph).2.2 j2 hj2 h2
      exact List.inj_on_of_nodup_map hnd hj1 hj2 (e1.trans e2.symm)
    | processing jid k total =>
      have e1 := (hproc jid k total hph).2.2 j1 hj1 h1
      have e2 := (hproc jid k total hph).2.2 j2 hj2 h2
      exact List.inj_on_of_nodup_map hnd hj1 hj2 (e1.trans e2.symm)
  · intro hph
    exact (hidle hph).1

/-- Witness for C1 at the initial state (reachable by the empty run). -/
theorem C1_running_exclusive_witness :
    Reachable true (initState true) ∧
    ((∀ j1 ∈ (initState true).jobs, ∀ j2 ∈ (initState true).jobs,
      j1.status = JobStatus.RUNNING → j2.status = JobStatus.RUNNING →
        j1 = j2) ∧
    ((initState true).phase = .idle → (initState true).lockHeld = false) ∧
    (∀ (t : SchedState) (jid : String) (k : Nat) (msg : String),
      (completeJobFun t jid).lockHeld = false ∧
      (pauseYieldFun t jid k).lockHeld = false ∧
      (failJobFun t jid msg).lockHeld = false)) :=
  ⟨Relation.ReflTransGen.refl,
    C1_running_exclusive true (initState true) Relation.ReflTransGen.refl⟩

theorem find?_set_id (l : List SysJob) (jid : String) (st : JobStatus) :
    (l.map (fun j => if j.id == jid then { j with status := st } else j)).find?
        (fun x => x.id == jid)
      = (l.find? (fun x => x.id == jid)).map
          (fun j => { j with status := st }) := by
  induction l with
  | nil => rfl
  | cons a l ih =>
    rw [List.map_cons]
    simp only [List.find?_cons]
    by_cases hid : a.id = jid
    · simp [hid]
    · have hc1 : ((if a.id == jid then ({ a with status := st } : SysJob)
          else a).id == jid) = false := by simp [hid]
      have hc2 : (a.id == jid) = false := by simp [hid]
      rw [hc1, hc2]
      exact ih

theorem findJob_setStatus_self (s : SchedState) (jid : String)
    (st : JobStatus) :
    findJob (setStatus s jid st) jid
      = (findJob s jid).map (fun j => { j with status := st }) := by
  unfold findJob
  rw [setStatus_jobs]
  exact find?_set_id s.jobs jid st

theorem getJobRec_update (table : List JobRec) (jid : String)
    (u : JobUpdate) :
    getJobRec (update_transcription_job table jid u) jid
      = (getJobRec table jid).map (applyUpdate u) := by
  unfold getJobRec update_transcription_job
  induction table with
  | nil => rfl
  | cons r t ih =>
    by_cases hid : r.id = jid
    · simp [hid, applyUpdate]
    · simp [hid, ih]

theorem pauseYieldFun_lockHeld (s : SchedState) (jid : String) (k : Nat) :
    (pauseYieldFun s jid k).lockHeld = false := rfl

theorem pauseYieldFun_queue (s : SchedState) (jid : String) (k : Nat)
    (j : SysJob) (hfind : findJob s jid = some j) :
    (pauseYieldFun s jid k).queue
      = s.queue ++ [(j.priority.value, jid)] := by
  have hq : (pauseYieldFun s jid k).queue
      = (persistJob (setStatus s jid .PAUSED) jid
          { status := some JobStatus.PAUSED.value,
            current_chunk_index := some k }).queue ++
        [(match findJob s jid with
          | some j => j.priority.value
          | none => JobPriority.LOW.value, jid)] := rfl
  rw [hq, persistJob_queue, hfind]
  rfl

theorem pauseYieldFun_jobTable (s : SchedState) (jid : String) (k : Nat)
    (hdb : s.hasDb = true) :
    (pauseYieldFun s jid k).jobTable
      = update_transcription_job s.jobTable jid
          { status := some JobStatus.PAUSED.value,
            current_chunk_index := some k } := by
  have ht : (pauseYieldFun s jid k).jobTable
      = (persistJob (setStatus s jid .PAUSED) jid
          { status := some JobStatus.PAUSED.value,
            current_chunk_index := some k }).jobTable := rfl
  rw [ht]
  unfold persistJob
  simp [setStatus, hdb]

theorem statusOf_pauseYieldFun (s : SchedState) (jid : String) (k : Nat)
    (j : SysJob) (hfind : findJob s jid = some j) :
    statusOf (pauseYieldFun s jid k) jid = some JobStatus.PAUSED := by
  unfold statusOf findJob
  rw [pauseYieldFun_jobs]
  have h2 := findJob_setStatus_self s jid .PAUSED
  unfold findJob at h2 hfind
  rw [h2, hfind]
  rfl

theorem currentNonHigh_eq_true_iff (s : SchedState) :
    currentNonHigh s = true ↔
      ∃ cid j, s.currentId = some cid ∧ findJob s cid = some j ∧
        JobPriority.HIGH.value < j.priority.value := by
  unfold currentNonHigh
  cases hcur : s.currentId with
  | none => simp
  | some cid =>
    cases hfind : findJob s cid with
    | none => simp [hfind]
    | some j => simp [hfind]

theorem currentNonHigh_submitPtt (s : SchedState) (jid : String)
    (hc : currentNonHigh s = true) :
    (submitPttFun s jid).pauseSet = false := by
  obtain ⟨cid, j, hcur, hfind, hprio⟩ := (currentNonHigh_eq_true_iff s).mp hc
  have hfind1 : findJob { s with
      jobs := s.jobs ++ [⟨jid, .HIGH, .PENDING, true, none⟩]
      queue := s.queue ++ [(JobPriority.HIGH.value, jid)] } cid
      = some j := by
    unfold findJob at hfind ⊢
    simp only [List.find?_append, hfind]
    rfl
  have hnh : currentNonHigh { s with
      jobs := s.jobs ++ [⟨jid, .HIGH, .PENDING, true, none⟩]
      queue := s.queue ++ [(JobPriority.HIGH.value, jid)] } = true := by
    rw [currentNonHigh_eq_true_iff]
    exact ⟨cid, j, hcur, hfind1, hprio⟩
  simp only [submitPttFun, hnh, if_true]
  split <;> rfl

/-- C2. (i) `submit_ptt_job` clears the preemption signal (`pause_event`)
whenever the currently active job has non-HIGH priority.  (ii) A chunked
job that observes the cleared signal at chunk boundary `k` takes the pause
transition, which leaves it PAUSED (never FAILED), persists `k` as the
checkpoint `current_chunk_index` in its job record, re-enqueues it at its
original priority, and releases the exclusivity lock. -/
theorem C2_high_priority_preemption :
    (∀ s jid, currentNonHigh s = true →
      (submitPttFun s jid).pauseSet = false) ∧
    (∀ s jid k total (j : SysJob) (rec : JobRec),
      s.phase = .processing jid k total → k < total → s.pauseSet = false →
      findJob s jid = some j → s.hasDb = true →
      getJobRec s.jobTable jid = some rec →
      Step s (pauseYieldFun s jid k) ∧
      statusOf (pauseYieldFun s jid k) jid = some JobStatus.PAUSED ∧
      statusOf (pauseYieldFun s jid k) jid ≠ some JobStatus.FAILED ∧
      (j.priority.value, jid) ∈ (pauseYieldFun s jid k).queue ∧
      (pauseYieldFun s jid k).lockHeld = false ∧
      (∃ rec', getJobRec (pauseYieldFun s jid k).jobTable jid = some rec' ∧
        rec'.status = JobStatus.PAUSED.value ∧
        rec'.current_chunk_index = k)) := by
  constructor
  · exact fun s jid hc => currentNonHigh_submitPtt s jid hc
  · intro s jid k total j rec hph hk hp hfind hdb hrec
    refine ⟨Step.pauseYield s jid k total hph hk hp,
      statusOf_pauseYieldFun s jid k j hfind, ?_, ?_,
      pauseYieldFun_lockHeld s jid k, ?_⟩
    · rw [statusOf_pauseYieldFun s jid k j hfind]
      simp
    · rw [pauseYieldFun_queue s jid k j hfind]
      simp
    · refine ⟨applyUpdate
        { status := some JobStatus.PAUSED.value,
          current_chunk_index := some k } rec, ?_, rfl, rfl⟩
      rw [pauseYieldFun_jobTable s jid k hdb, getJobRec_update, hrec]
      rfl

/-- A concrete mid-chunk scheduler state: a NORMAL file job is RUNNING
between chunk boundaries 1 and 2 of 3, the preemption signal has been
cleared, and a store is attached. -/
def midFileJob : SysJob := ⟨"file_1", .NORMAL, .RUNNING, false, some "a.wav"⟩

def midFileRec : JobRec :=
  { submitFileJobRec "file_1" .NORMAL "a.wav" none with
    status := JobStatus.RUNNING.value }

def stateMidChunk : SchedState :=
  { jobs := [midFileJob], queue := [], lockHeld := true,
    currentId := some "file_1", pauseSet := false, hasDb := true,
    jobTable := [midFileRec], phase := .processing "file_1" 1 3 }

/-- Witness for C2 at `stateMidChunk`. -/
theorem C2_high_priority_preemption_witness :
    (currentNonHigh stateMidChunk = true ∧
      (submitPttFun stateMidChunk "ptt_1").pauseSet = false) ∧
    (stateMidChunk.phase = .processing "file_1" 1 3 ∧ 1 < 3 ∧
      stateMidChunk.pauseSet = false ∧
      findJob stateMidChunk "file_1" = some midFileJob ∧
      stateMidChunk.hasDb = true ∧
      getJobRec stateMidChunk.jobTable "file_1" = some midFileRec ∧
      (Step stateMidChunk (pauseYieldFun stateMidChunk "file_1" 1) ∧
        statusOf (pauseYieldFun stateMidChunk "file_1" 1) "file_1"
          = some JobStatus.PAUSED ∧
        statusOf (pauseYieldFun stateMidChunk "file_1" 1) "file_1"
          ≠ some JobStatus.FAILED ∧
        (JobPriority.NORMAL.value, "file_1")
          ∈ (pauseYieldFun stateMidChunk "file_1" 1).queue ∧
        (pauseYieldFun stateMidChunk "file_1" 1).lockHeld = false ∧
        (∃ rec', getJobRec (pauseYieldFun stateMidChunk "file_1" 1).jobTable
            "file_1" = some rec' ∧
          rec'.status = JobStatus.PAUSED.value ∧
          rec'.current_chunk_index = 1))) :=
  ⟨⟨rfl, C2_high_priority_preemption.1 stateMidChunk "ptt_1" rfl⟩,
    rfl, by decide, rfl, rfl, rfl, rfl,
    C2_high_priority_preemption.2 stateMidChunk "file_1" 1 3 midFileJob
      midFileRec rfl (by decide) rfl rfl rfl rfl⟩

/-! ## Concrete processing scenarios

A 45-second file (720,000 samples → chunks 0 and 1), an engine returning
"alpha" for chunk 0 and "beta" for chunk 1, submitted as a NORMAL file
job with a store attached. -/

def demoEngine : Nat → String := fun i => if i = 0 then "alpha" else "beta"

def envProceed : Nat → BoundaryObs := fun _ => .proceed

def envPauseAt1 : Nat → BoundaryObs :=
  fun k => if k = 1 then .pauseCleared else .proceed

def envCancelAt1 : Nat → BoundaryObs :=
  fun k => if k = 1 then .cancelObserved else .proceed

def demoFileJob : MemJob :=
  { id := "file_1", priority := .NORMAL, status := .PENDING,
    hasAudio := false, file_path := some "a.wav" }

def demoTable : List JobRec := [submitFileJobRec "file_1" .NORMAL "a.wav" none]

def demoSamples : String → Nat := fun _ => 720000

/-- The uninterrupted run of the demo job. -/
def demoFullRun : ProcRes :=
  processJob demoEngine envProceed "" demoSamples true [] demoTable demoFileJob

/-- The demo job preempted at chunk boundary 1 (after completing chunk 0). -/
def demoPausedRun : ProcRes :=
  processJob demoEngine envPauseAt1 "" demoSamples true [] demoTable demoFileJob

/-- The paused demo job re-dequeued and run to completion (same in-memory
job object, chunk store and job table as left by the paused run). -/
def demoResumedRun : ProcRes :=
  processJob demoEngine envProceed "" demoSamples true demoPausedRun.chunkStore
    demoPausedRun.jobTable demoPausedRun.job

/-- The demo job with cancellation observed at chunk boundary 1. -/
def demoCancelRun : ProcRes :=
  processJob demoEngine envCancelAt1 "" demoSamples true [] demoTable demoFileJob

/-- C3 (evaluation at the failing input).  For the 2-chunk demo job
preempted after chunk 0: the persisted chunks are exactly 0..k-1 with no
gaps, and the resumed run processes exactly chunks k..N-1 once each
(chunk records 0 and 1, each written once) — but the resumed job's final
`result_text` is "beta", not the "alpha beta" an uninterrupted run
produces: `_transcribe_file` restarts `all_text_parts` empty at the
resume index and never merges the text of the already-persisted chunks,
contradicting both the claim and its own docstring ("combined from all
chunks"). -/
theorem C3_resumed_text_drops_prefix :
    demoFullRun.job.status = JobStatus.COMPLETED ∧
    demoFullRun.job.result_text = "alpha beta" ∧
    demoPausedRun.job.status = JobStatus.PAUSED ∧
    (get_job_chunks demoPausedRun.chunkStore "file_1").map
      (fun c => c.chunk_index) = [0] ∧
    demoResumedRun.job.status = JobStatus.COMPLETED ∧
    (get_job_chunks demoResumedRun.chunkStore "file_1").map
      (fun c => c.chunk_index) = [0, 1] ∧
    demoResumedRun.job.result_text = "beta" ∧
    demoResumedRun.job.result_text ≠ demoFullRun.job.result_text :=
  ⟨rfl, rfl, rfl, rfl, rfl, rfl, rfl, by decide⟩

/-- C6 (evaluation at the failing input).  A RUNNING chunked job whose
cancellation is observed at chunk boundary 1 does not end CANCELLED with
an empty `error_message`: `_transcribe_file` raises
`RuntimeError("Job cancelled")`, which the generic handler of
`_process_job` converts to status FAILED with `error_message =
"Job cancelled"`, and a `job_failed` event is emitted. -/
theorem C6_boundary_cancel_marks_failed :
    demoCancelRun.job.status = JobStatus.FAILED ∧
    demoCancelRun.job.status ≠ JobStatus.CANCELLED ∧
    demoCancelRun.job.error_message = "Job cancelled" ∧
    demoCancelRun.job.error_message ≠ "" ∧
    demoCancelRun.events
      = [.started "file_1", .failedEv "file_1" "Job cancelled"] :=
  ⟨rfl, by decide, rfl, by decide, rfl⟩

/-- A queued-but-not-running job: one PENDING file job sits in the queue,
no job is current. -/
def stateQueuedJob : SchedState :=
  { jobs := [⟨"file_q", .NORMAL, .PENDING, false, some "q.wav"⟩],
    queue := [(1, "file_q")], lockHeld := false, currentId := none,
    pauseSet := true, hasDb := false, jobTable := [], phase := .idle }

/-- C7 (evaluation at the failing input).  `cancel_job` on a queued job
that is not the current job changes nothing (its guard only matches
`self.current_job`), so the job stays PENDING, and the worker's
dequeue-and-process transition — not the cancelled-job skip — is the one
enabled for it. -/
theorem C7_cancel_queued_job_is_noop :
    cancelJobFun stateQueuedJob "file_q" = stateQueuedJob ∧
    statusOf (cancelJobFun stateQueuedJob "file_q") "file_q"
      = some JobStatus.PENDING ∧
    statusOf (cancelJobFun stateQueuedJob "file_q") "file_q"
      ≠ some JobStatus.CANCELLED ∧
    Step (cancelJobFun stateQueuedJob "file_q")
      (dequeuePickFun (cancelJobFun stateQueuedJob "file_q") (1, "file_q")) :=
  ⟨rfl, rfl, by decide,
    Step.dequeuePick (cancelJobFun stateQueuedJob "file_q") (1, "file_q")
      (by decide) rfl (by decide)⟩

/-- C10. A job with neither an in-memory audio buffer nor a file path is
handled without crashing the worker: `_process_job` catches the
`ValueError`, marks the job FAILED with `error_message = "Job has neither
audio_data nor file_path"`, emits a failure event, and the failure path
releases the exclusivity lock and returns the worker to its idle loop. -/
theorem C10_no_source_fails_gracefully :
    (∀ (engine : Nat → String) (env : Nat → BoundaryObs) (pttText : String)
      (audioSamples : String → Nat) (hasDb : Bool) (store : List ChunkRec)
      (table : List JobRec) (job : MemJob),
      job.hasAudio = false → job.file_path = none →
      (processJob engine env pttText audioSamples hasDb store table
        job).job.status = JobStatus.FAILED ∧
      (processJob engine env pttText audioSamples hasDb store table
        job).job.error_message = "Job has neither audio_data nor file_path" ∧
      (processJob engine env pttText audioSamples hasDb store table
        job).events = [.started job.id,
          .failedEv job.id "Job has neither audio_data nor file_path"]) ∧
    (∀ (s : SchedState) (jid : String),
      (failJobFun s jid "Job has neither audio_data nor file_path").lockHeld
        = false ∧
      (failJobFun s jid "Job has neither audio_data nor file_path").phase
        = .idle) := by
  constructor
  · intro engine env pttText audioSamples hasDb store table job hA hP
    refine ⟨?_, ?_, ?_⟩ <;> simp [processJob, hA, hP]
  · intro s jid
    exact ⟨rfl, rfl⟩

/-- A job object with neither source. -/
def noSourceJob : MemJob :=
  { id := "ghost_1", priority := .NORMAL, status := .PENDING,
    hasAudio := false, file_path := none }

/-- Witness for C10 at `noSourceJob`. -/
theorem C10_no_source_fails_gracefully_witness :
    (noSourceJob.hasAudio = false ∧ noSourceJob.file_path = none) ∧
    ((processJob demoEngine envProceed "" demoSamples false [] []
        noSourceJob).job.status = JobStatus.FAILED ∧
      (processJob demoEngine envProceed "" demoSamples false [] []
        noSourceJob).job.error_message
        = "Job has neither audio_data nor file_path" ∧
      (processJob demoEngine envProceed "" demoSamples false [] []
        noSourceJob).events = [.started noSourceJob.id,
          .failedEv noSourceJob.id
            "Job has neither audio_data nor file_path"]) ∧
    ((failJobFun (initState false) "ghost_1"
        "Job has neither audio_data nor file_path").lockHeld = false ∧
      (failJobFun (initState false) "ghost_1"
        "Job has neither audio_data nor file_path").phase = .idle) :=
  ⟨⟨rfl, rfl⟩,
    C10_no_source_fails_gracefully.1 demoEngine envProceed "" demoSamples
      false [] [] noSourceJob rfl rfl,
    C10_no_source_fails_gracefully.2 (initState false) "ghost_1"⟩

end WhisperFree
